import Mathlib

/-!
Shallow embedding of the cloud synchronization core of the dejavu
repository (src/sync.go), together with theorems settling the frozen
claims about it.  Each definition mirrors one Go function of sync.go;
network and disk effects (object uploads, downloads, removals, local
checkouts) are made explicit as function inputs and as returned logs.
-/

set_option autoImplicit false

namespace Dejavu

/-- Entity file manifest (entity.File): content-address id, path, size,
updated timestamp in milliseconds, and the chunk hash list. -/
structure File where
  ID : String
  Path : String
  Size : Int
  Updated : Int
  Chunks : List String
  deriving Repr, DecidableEq

/-- Entity snapshot index (entity.Index). -/
structure Index where
  ID : String
  Parent : String
  Memo : String
  Created : Int
  Files : List String
  Size : Int
  SystemID : String
  SystemName : String
  SystemOS : String
  CheckIndexID : String
  deriving Repr, DecidableEq

/-- Empty index, as produced by `&entity.Index{}` in Go. -/
def emptyIndex : Index :=
  { ID := "", Parent := "", Memo := "", Created := 0, Files := [], Size := 0,
    SystemID := "", SystemName := "", SystemOS := "", CheckIndexID := "" }

/-- Merge result of a sync (MergeResult), without the wall-clock Time field. -/
structure MergeResult where
  Upserts : List File
  Removes : List File
  Conflicts : List File
  deriving Repr, DecidableEq

/-- MergeResult freshly allocated at the start of a sync. -/
def emptyMergeResult : MergeResult := ⟨[], [], []⟩

/-- Model of strings.HasPrefix over the character lists; structural so
that it evaluates inside the kernel. -/
def goHasPrefix (s pre : String) : Bool :=
  pre.data.isPrefixOf s.data

/-- Model of strings.HasSuffix over the character lists; structural so
that it evaluates inside the kernel. -/
def goHasSuffix (s suffix : String) : Bool :=
  suffix.data.isSuffixOf s.data

/-- Splitting loop modelling strings.Split with the one-character
separator "-"; the current fragment is accumulated in reverse. -/
def splitDashAux : List Char → List Char → List (List Char)
  | [], cur => [cur.reverse]
  | c :: rest, cur =>
    if c = '-' then cur.reverse :: splitDashAux rest []
    else splitDashAux rest (c :: cur)

/-- Model of strings.Split(p, "-") as used at sync.go:1745: the list of
dash-separated fragments (one empty fragment for the empty string). -/
def splitDash (cs : List Char) : List (List Char) :=
  splitDashAux cs []

/-- Embedding of Repo.getFile (sync.go:1016): first element of the list
matching the probe file by id OR by path. -/
def getFile (files : List File) (file : File) : Option File :=
  files.find? (fun f => f.ID == file.ID || f.Path == file.Path)

/-- Seven minutes in milliseconds, the hard-coded skew threshold
(7*60*1000 and 1000*60*7 in sync.go). -/
def sevenMinutesMillis : Int := 7 * 60 * 1000

/-- Lookup in the Go map built by inserting files keyed by Path in list
order: a later entry with the same path overwrites an earlier one, so the
lookup finds the last matching element. -/
def lastByPath (files : List File) (p : String) : Option File :=
  files.reverse.find? (fun f => f.Path == p)

/-- Test applied by Repo.filterLocalUpserts (sync.go:806) to one local
upsert: its path has a matching cloud upsert in the path map and the local
updated stamp is older than the cloud one by more than seven minutes. -/
def staleLocalUpsert (cloudUpserts : List File) (l : File) : Bool :=
  match lastByPath cloudUpserts l.Path with
  | some c => decide (l.Updated < c.Updated - sevenMinutesMillis)
  | none => false

/-- Embedding of Repo.filterLocalUpserts (sync.go:806): collect the paths
of local upserts deemed stale against the cloud upserts, then keep every
local upsert whose path is not among the collected paths. -/
def filterLocalUpserts (localUpserts cloudUpserts : List File) : List File :=
  let toRemovePaths := (localUpserts.filter (staleLocalUpsert cloudUpserts)).map (fun l => l.Path)
  localUpserts.filter (fun l => decide (l.Path ∉ toRemovePaths))

/-- Test from sync0 (sync.go:343): the locally known file at the same path,
when one exists, is newer than the cloud upsert by more than seven minutes. -/
def cloudUpsertTooOld (latestFiles : List File) (cu : File) : Bool :=
  match lastByPath latestFiles cu.Path with
  | some lf => decide (lf.Updated > cu.Updated + sevenMinutesMillis)
  | none => false

/-- Accumulator of the cloud-upsert walk of sync0 (sync.go:309): the
Upserts and Conflicts buckets of the merge result plus the tentative
conflict list tmpMergeConflicts. -/
structure WalkAcc where
  Upserts : List File
  Conflicts : List File
  tmpConflicts : List File
  deriving Repr, DecidableEq

/-- Body of one iteration of the cloud-upsert walk of sync0
(sync.go:309-353).  The fold-only comparison Repo.ignoreLocalUpsert is
passed in as the oracle `ignoreLocal` applied to the matched local upsert
(its other arguments, the sync-base files and the timestamp, are fixed
for the whole walk in the source). -/
def walkStep (localUpserts localRemoves : List File) (fetchedFileIDs : List String)
    (latestFiles : List File) (ignoreLocal : File → Bool) (acc : WalkAcc) (cu : File) : WalkAcc :=
  match getFile localUpserts cu with
  | some localUpsert =>
    let acc1 : WalkAcc := { acc with tmpConflicts := acc.tmpConflicts ++ [cu] }
    if cu.ID ∈ fetchedFileIDs then
      if ignoreLocal localUpsert then { acc1 with Upserts := acc1.Upserts ++ [cu] }
      else { acc1 with Conflicts := acc1.Conflicts ++ [cu] }
    else acc1
  | none =>
    match getFile localRemoves cu with
    | some _ => acc
    | none =>
      if goHasSuffix cu.Path ".tmp" then acc
      else if cloudUpsertTooOld latestFiles cu then acc
      else { acc with Upserts := acc.Upserts ++ [cu] }

/-- The cloud-upsert walk of sync0 (sync.go:309-353) as a fold over the
cloud upserts, starting from empty buckets. -/
def cloudUpsertWalk (localUpserts localRemoves : List File) (fetchedFileIDs : List String)
    (latestFiles : List File) (ignoreLocal : File → Bool) (cloudUpserts : List File) : WalkAcc :=
  cloudUpserts.foldl (walkStep localUpserts localRemoves fetchedFileIDs latestFiles ignoreLocal) ⟨[], [], []⟩

/-- Merge-result computation of sync0 (sync.go:285-395): skew-filter the
local upserts, walk the cloud upserts, collect cloud removes not matched
by a local upsert, then strip removes whose path matches the effective
syncignore matcher.  The matcher (rebuilt from a cloud-upserted
/.siyuan/syncignore when present, otherwise matching nothing) is abstracted
as the predicate `ignoreMatcher` because its construction reads the
checked-out ignore file from disk. -/
def sync0Merge (localUpserts0 localRemoves cloudUpserts cloudRemoves : List File)
    (fetchedFileIDs : List String) (latestFiles : List File)
    (ignoreLocal : File → Bool) (ignoreMatcher : String → Bool) : MergeResult :=
  let localUpserts := filterLocalUpserts localUpserts0 cloudUpserts
  let w := cloudUpsertWalk localUpserts localRemoves fetchedFileIDs latestFiles ignoreLocal cloudUpserts
  let removes0 := cloudRemoves.filter (fun r => (getFile localUpserts r).isNone)
  let removes1 := removes0.filter (fun r => !ignoreMatcher r.Path)
  ⟨w.Upserts, removes1, w.Conflicts⟩

/-- Digit-string value used by goAtoiChars; none when a non-digit occurs. -/
def digitsVal (cs : List Char) : Option Nat :=
  cs.foldl (fun acc c =>
    match acc with
    | none => none
    | some n => if c.isDigit then some (n * 10 + (c.toNat - 48)) else none) (some 0)

/-- Model of strconv.Atoi as used at sync.go:1751 with the error ignored:
the parsed value on success and 0 on any parse error. -/
def goAtoiChars (cs : List Char) : Int :=
  match cs with
  | [] => 0
  | '-' :: rest =>
    if rest.isEmpty then 0
    else
      match digitsVal rest with
      | some n => -(n : Int)
      | none => 0
  | '+' :: rest =>
    if rest.isEmpty then 0
    else
      match digitsVal rest with
      | some n => (n : Int)
      | none => 0
  | cs =>
    match digitsVal cs with
    | some n => (n : Int)
    | none => 0

/-- Result of Repo.getSeqNumLatest (sync.go:1733): the hash named by the
max-sequence pointer, the max sequence number, the surviving
refs/latest-* keys, and additionally the log of keys passed to
RemoveObject during the scan. -/
structure SeqNumScan where
  id : String
  maxSeqNum : Int
  seqNumLatests : List String
  removed : List String
  deriving Repr, DecidableEq

/-- One iteration of the Repo.getSeqNumLatest loop (sync.go:1739-1758)
over a listed ref path (relative to refs/). -/
def seqNumStep (acc : SeqNumScan) (ref : String) : SeqNumScan :=
  if goHasPrefix ref "latest-" then
    let p := ref.data.drop 7
    let parts := splitDash p
    if parts.length < 2 then { acc with removed := acc.removed ++ ["refs/" ++ ref] }
    else
      let seqNum := goAtoiChars (parts.headD [])
      let acc1 :=
        if acc.maxSeqNum < seqNum then
          { acc with maxSeqNum := seqNum, id := ⟨parts.getD 1 []⟩ }
        else acc
      { acc1 with seqNumLatests := acc1.seqNumLatests ++ ["refs/" ++ ref] }
  else acc

/-- Embedding of Repo.getSeqNumLatest (sync.go:1733) over the successful
listing of the keys under refs/ (paths relative to refs/). -/
def getSeqNumLatest (refs : List String) : SeqNumScan :=
  refs.foldl seqNumStep ⟨"", 0, [], []⟩

/-- Predicate on a listed refs/ entry describing when the getSeqNumLatest
scan removes it from the remote: it starts with latest- but the remainder
splits into fewer than two dash-separated parts. -/
def badSeqRef (p : String) : Bool :=
  goHasPrefix p "latest-" && decide ((splitDash (p.data.drop 7)).length < 2)

/-- Model of strings.TrimSpace: drop whitespace characters from both ends
of the string.  Defined structurally over the character list so that it
evaluates inside the kernel. -/
def goTrimSpace (s : String) : String :=
  ⟨((s.toList.dropWhile Char.isWhitespace).reverse.dropWhile Char.isWhitespace).reverse⟩

/-- Error outcomes of downloadCloudLatest that the callers distinguish:
the NotFound family (cloud.ErrCloudObjectNotFound) and any other error. -/
inductive DLErr where
  | notFound
  | other
  deriving Repr, DecidableEq

/-- Result of Repo.downloadCloudLatest (sync.go:1667): the chosen index,
the error (none models a nil error), and the log of index ids for which an
index download was issued. -/
structure DCLResult where
  index : Index
  err : Option DLErr
  downloads : List String
  deriving Repr, DecidableEq

/-- Embedding of Repo.downloadCloudLatest (sync.go:1667-1731).
`refsLatest` is the payload of refs/latest (none models NotFound),
`indexStore` resolves an index id to the index stored under indexes/<id>
(none models a failed download), `refsList` is the listing under refs/,
and `isS3OrSiYuan` is the backend test.  A ref payload whose trimmed
length is not 40 yields the NotFound error and the empty index.  On the
S3/SiYuan backends, when the max-seq pointer disagrees with refs/latest,
the seq-num index is also downloaded and the one with the larger Created
stamp wins. -/
def downloadCloudLatest (refsLatest : Option String) (indexStore : String → Option Index)
    (refsList : List String) (isS3OrSiYuan : Bool) : DCLResult :=
  match refsLatest with
  | none => ⟨emptyIndex, none, []⟩
  | some data =>
    let latestID := goTrimSpace data
    if latestID.length ≠ 40 then ⟨emptyIndex, some DLErr.notFound, []⟩
    else
      match indexStore latestID with
      | none => ⟨emptyIndex, some DLErr.other, [latestID]⟩
      | some index0 =>
        let seqNumLatestID := if isS3OrSiYuan then (getSeqNumLatest refsList).id else ""
        if isS3OrSiYuan = true ∧ seqNumLatestID ≠ "" ∧ index0.ID ≠ "" ∧ latestID ≠ seqNumLatestID then
          match indexStore seqNumLatestID with
          | none => ⟨index0, none, [latestID, seqNumLatestID]⟩
          | some seqIdx =>
            ⟨if index0.Created < seqIdx.Created then seqIdx else index0, none,
              [latestID, seqNumLatestID]⟩
        else ⟨index0, none, [latestID]⟩

/-- Model of gulu.Str.RemoveDuplicatedElem: keep the first occurrence of
each element. -/
def dedupFirst (l : List String) : List String :=
  l.foldl (fun acc x => if x ∈ acc then acc else acc ++ [x]) []

/-- Environment of one sync run: the local latest index, the remote state
consulted by downloadCloudLatest, the backend quota, and the local-store
presence test used by localNotFoundFiles. -/
structure SyncEnv where
  localLatest : Index
  refsLatest : Option String
  indexStore : String → Option Index
  refsList : List String
  isS3OrSiYuan : Bool
  availableSize : Int
  localHasFile : String → Bool

/-- Control-flow outcome of the front of Repo.sync (sync.go:129-183), up
to and including the computation of the file ids to fetch; the remainder
of the sync (chunk transfer, diff, merge) happens only in the proceeded
case. -/
inductive SyncFrontOutcome where
  | downloadFailed
  | noChange
  | sizeExceeded
  | proceeded (fetchFileIDs : List String)
  deriving Repr, DecidableEq

/-- Embedding of the front of Repo.sync (sync.go:129-183): download the
cloud latest (NotFound tolerated), return on identical ids, then fail
with ErrCloudStorageSizeExceeded when the available size is at most the
cloud latest size or at most the local latest size, and otherwise proceed
to fetch the locally missing files of the cloud latest. -/
def syncFront (env : SyncEnv) : SyncFrontOutcome :=
  let r := downloadCloudLatest env.refsLatest env.indexStore env.refsList env.isS3OrSiYuan
  if r.err = some DLErr.other then SyncFrontOutcome.downloadFailed
  else if r.index.ID = env.localLatest.ID then SyncFrontOutcome.noChange
  else if env.availableSize ≤ r.index.Size ∨ env.availableSize ≤ env.localLatest.Size then
    SyncFrontOutcome.sizeExceeded
  else
    SyncFrontOutcome.proceeded (dedupFirst (r.index.Files.filter (fun id => !env.localHasFile id)))

/-- Data-object ids whose transfer the front of Repo.sync initiates; empty
on every early exit. -/
def syncDataFetches (env : SyncEnv) : List String :=
  match syncFront env with
  | SyncFrontOutcome.proceeded fs => fs
  | _ => []

/-- Result of the front of Repo.SyncDownload (sync.go:1869-1922): the
merge result as of the early return (still empty), the propagated error of
downloadCloudLatest, whether control proceeded past the early return into
the transfer and merge phase, and the file ids fetched when it did.  All
uploads, file and chunk transfers, and the writes of the local latest and
refs/latest-sync occur in the source only after the point modelled by
`proceeded = true`. -/
structure SyncDownloadFrontResult where
  mergeResult : MergeResult
  err : Option DLErr
  proceeded : Bool
  fetchFileIDs : List String
  deriving Repr, DecidableEq

/-- Embedding of the front of Repo.SyncDownload (sync.go:1869-1922):
download the cloud latest (NotFound tolerated but the error variable is
not cleared), then return immediately when the cloud id equals the local
id or is empty; otherwise proceed to fetch the locally missing files. -/
def syncDownloadFront (env : SyncEnv) : SyncDownloadFrontResult :=
  let r := downloadCloudLatest env.refsLatest env.indexStore env.refsList env.isS3OrSiYuan
  if r.err = some DLErr.other then ⟨emptyMergeResult, some DLErr.other, false, []⟩
  else if r.index.ID = env.localLatest.ID ∨ r.index.ID = "" then
    ⟨emptyMergeResult, r.err, false, []⟩
  else
    ⟨emptyMergeResult, r.err, true,
      dedupFirst (r.index.Files.filter (fun id => !env.localHasFile id))⟩

/-- Entry of the remote indexes-v2.json list (cloud.Index). -/
structure CloudIndexEntry where
  ID : String
  SystemID : String
  SystemName : String
  SystemOS : String
  deriving Repr, DecidableEq

/-- Deduplication loop of Repo.updateCloudIndexesV2 (sync.go:1258-1269):
keep the first entry for each id, tracking the ids already added. -/
def dedupIndexes : List CloudIndexEntry → List String → List CloudIndexEntry
  | [], _ => []
  | e :: rest, added =>
    if e.ID ∈ added then dedupIndexes rest added
    else e :: dedupIndexes rest (e.ID :: added)

/-- List entry built from the local latest when prepending it to
indexes-v2.json (sync.go:1276-1283). -/
def entryOf (latest : Index) : CloudIndexEntry :=
  ⟨latest.ID, latest.SystemID, latest.SystemName, latest.SystemOS⟩

/-- Embedding of Repo.updateCloudIndexesV2 (sync.go:1233-1297).  `old` is
the decoded remote indexes-v2.json (none models NotFound or empty
payload).  The result is the uploaded list, or none when the function
returns early without uploading because the latest id was already
present. -/
def updateCloudIndexesV2 (latest : Index) (old : Option (List CloudIndexEntry)) :
    Option (List CloudIndexEntry) :=
  match old with
  | none => some [entryOf latest]
  | some entries =>
    if entries.any (fun e => e.ID == latest.ID) then none
    else some (entryOf latest :: dedupIndexes entries [])

/-- Remote indexes-v2.json after a successful run of updateCloudIndexesV2:
the uploaded list when one was uploaded, otherwise the previous remote
content unchanged. -/
def remoteIndexesV2After (latest : Index) (old : Option (List CloudIndexEntry)) :
    List CloudIndexEntry :=
  match updateCloudIndexesV2 latest old with
  | some l => l
  | none => old.getD []

/-! Concrete inputs used by counterexamples and witnesses. -/

/-- Local upsert sharing the path /a with cloudFileA. -/
def localFileA : File := ⟨"id-local-a", "/a", 0, 0, []⟩

/-- Cloud upsert at path /a whose id was not downloaded this sync. -/
def cloudFileA : File := ⟨"id-cloud-a", "/a", 0, 0, []⟩

/-- Local upsert used by the C1 witness. -/
def localFileB : File := ⟨"id-local-b", "/b", 0, 0, []⟩

/-- Cloud upsert at path /b whose id was downloaded this sync. -/
def cloudFileB : File := ⟨"id-cloud-b", "/b", 0, 0, []⟩

/-- Local file whose cloud counterpart is stale by more than 7 minutes. -/
def localFileC4 : File := ⟨"id-local-c4", "/p", 0, 0, []⟩

/-- Cloud upsert newer than localFileC4 by 500000 ms. -/
def cloudFileC4 : File := ⟨"id-cloud-c4", "/p", 0, 500000, []⟩

/-- Plain markdown cloud upsert used by the C5 witness. -/
def cloudFileC5 : File := ⟨"id-cloud-c5", "/doc.md", 0, 0, []⟩

/-- A well-formed 40-character ref payload. -/
def hash40 : String := "aaaaaaaaaaaaaaaaaaaaaaaaaaaaaaaaaaaaaaaa"

/-- Index stored under the refs/latest hash in the C2 witness. -/
def mainIdxC2 : Index := { emptyIndex with ID := hash40, Created := 10 }

/-- Index stored under the seq-num hash in the C2 witness. -/
def seqIdxC2 : Index := { emptyIndex with ID := "b", Created := 20 }

/-- Index store of the C2 witness. -/
def storeC2 : String → Option Index :=
  fun s => if s = hash40 then some mainIdxC2 else if s = "b" then some seqIdxC2 else none

/-- Environment of the C8 witness: empty remote, local latest of size 5
against an available size of 3. -/
def envC8 : SyncEnv :=
  { localLatest := { emptyIndex with ID := "x", Size := 5 },
    refsLatest := none, indexStore := fun _ => none, refsList := [],
    isS3OrSiYuan := false, availableSize := 3, localHasFile := fun _ => false }

/-- Environment of the C10 counterexample: refs/latest holds a malformed
two-character payload. -/
def envC10 : SyncEnv :=
  { localLatest := { emptyIndex with ID := "local" },
    refsLatest := some "zz", indexStore := fun _ => none, refsList := [],
    isS3OrSiYuan := false, availableSize := 0, localHasFile := fun _ => false }

/-- Environment of the C10 witness: refs/latest absent. -/
def envC10w : SyncEnv :=
  { localLatest := { emptyIndex with ID := "local" },
    refsLatest := none, indexStore := fun _ => none, refsList := [],
    isS3OrSiYuan := false, availableSize := 0, localHasFile := fun _ => false }

/-- Local latest used by the C3 counterexample and witness. -/
def idxC3 : Index := { emptyIndex with ID := "L000" }

/-! Helper lemmas shared between claims. -/

theorem getSeqNumLatest_removed_aux (refs : List String) (acc : SeqNumScan) :
    (refs.foldl seqNumStep acc).removed
      = acc.removed ++ (refs.filter badSeqRef).map (fun r => "refs/" ++ r) := by
  induction refs generalizing acc with
  | nil => simp
  | cons r rest ih =>
    simp only [List.foldl_cons, List.filter_cons]
    rw [ih]
    by_cases h1 : goHasPrefix r "latest-"
    · by_cases h2 : (splitDash (r.data.drop 7)).length < 2
      · have hb : badSeqRef r = true := by simp [badSeqRef, h1, h2]
        have hs : (seqNumStep acc r).removed = acc.removed ++ ["refs/" ++ r] := by
          simp only [seqNumStep, if_pos h1, if_pos h2]
        simp [hb, hs]
      · have hb : badSeqRef r = false := by simp [badSeqRef, h2]
        have hs : (seqNumStep acc r).removed = acc.removed := by
          simp only [seqNumStep, if_pos h1, if_neg h2]
          split <;> rfl
        simp [hb, hs]
    · have hb : badSeqRef r = false := by simp [badSeqRef, h1]
      have hs : (seqNumStep acc r).removed = acc.removed := by
        simp only [seqNumStep, if_neg h1]
      simp [hb, hs]

theorem dedupIndexes_subset : ∀ (l : List CloudIndexEntry) (added : List String),
    ∀ e ∈ dedupIndexes l added, e ∈ l := by
  intro l
  induction l with
  | nil => intro added e he; simp [dedupIndexes] at he
  | cons x rest ih =>
    intro added e he
    simp only [dedupIndexes] at he
    by_cases hx : x.ID ∈ added
    · rw [if_pos hx] at he
      exact List.mem_cons_of_mem _ (ih added e he)
    · rw [if_neg hx] at he
      rcases List.mem_cons.1 he with rfl | he'
      · exact List.mem_cons_self _ _
      · exact List.mem_cons_of_mem _ (ih _ e he')

theorem dedupIndexes_nodup : ∀ (l : List CloudIndexEntry) (added : List String),
    ((dedupIndexes l added).map (fun e => e.ID)).Nodup ∧
      ∀ e ∈ dedupIndexes l added, e.ID ∉ added := by
  intro l
  induction l with
  | nil => intro added; simp [dedupIndexes]
  | cons x rest ih =>
    intro added
    by_cases hx : x.ID ∈ added
    · simpa [dedupIndexes, hx] using ih added
    · obtain ⟨hnd, hmem⟩ := ih (x.ID :: added)
      refine ⟨?_, ?_⟩
      · simp only [dedupIndexes, if_neg hx, List.map_cons, List.nodup_cons]
        refine ⟨?_, hnd⟩
        intro hcontra
        rcases List.mem_map.1 hcontra with ⟨e, he, heq⟩
        exact (hmem e he) (by rw [heq]; exact List.mem_cons_self _ _)
      · intro e he
        simp only [dedupIndexes, if_neg hx] at he
        rcases List.mem_cons.1 he with rfl | he'
        · exact hx
        · intro hmem2
          exact (hmem e he') (List.mem_cons_of_mem _ hmem2)

/-! Theorems settling the claims. -/

/-- Claim C9: reading the seq-number latest pointer has a remote side
effect.  The removal log of getSeqNumLatest is exactly the refs/ entries
whose name starts with latest- but whose remainder splits into fewer than
two dash-separated parts, each passed to RemoveObject during the scan. -/
theorem getSeqNumLatest_removes_malformed (refs : List String) :
    (getSeqNumLatest refs).removed = (refs.filter badSeqRef).map (fun r => "refs/" ++ r) := by
  simpa using getSeqNumLatest_removed_aux refs ⟨"", 0, [], []⟩

/-- Claim C7: when the payload of refs/latest, after stripping surrounding
whitespace, has a length different from 40, downloadCloudLatest returns
the NotFound error together with the empty index, and downloads no index
at all. -/
theorem downloadCloudLatest_malformed (data : String) (indexStore : String → Option Index)
    (refsList : List String) (b : Bool) (h : (goTrimSpace data).length ≠ 40) :
    downloadCloudLatest (some data) indexStore refsList b
      = ⟨emptyIndex, some DLErr.notFound, []⟩ := by
  simp only [downloadCloudLatest]
  rw [if_pos h]

/-- Witness for C7 at the malformed payload "abc". -/
theorem downloadCloudLatest_malformed_witness :
    (goTrimSpace "abc").length ≠ 40 ∧
      downloadCloudLatest (some "abc") (fun _ => none) [] true
        = ⟨emptyIndex, some DLErr.notFound, []⟩ :=
  ⟨by decide, downloadCloudLatest_malformed "abc" (fun _ => none) [] true (by decide)⟩

/-- Claim C6: after the merge, a file is in mergeResult.Removes exactly
when it is a cloud remove, matches no (skew-filtered) local upsert, and
its path does not match the effective syncignore matcher. -/
theorem sync0Merge_removes_spec (localUpserts0 localRemoves cloudUpserts cloudRemoves : List File)
    (fetchedFileIDs : List String) (latestFiles : List File)
    (ignoreLocal : File → Bool) (ignoreMatcher : String → Bool) (r : File) :
    r ∈ (sync0Merge localUpserts0 localRemoves cloudUpserts cloudRemoves
          fetchedFileIDs latestFiles ignoreLocal ignoreMatcher).Removes ↔
      (r ∈ cloudRemoves ∧ getFile (filterLocalUpserts localUpserts0 cloudUpserts) r = none ∧
        ignoreMatcher r.Path = false) := by
  simp only [sync0Merge, List.mem_filter, Option.isNone_iff_eq_none, Bool.not_eq_true']
  tauto

/-- Claim C8: after the no-change test, when the available backend size is
at most the cloud latest size or at most the local latest size, the sync
front fails with CloudStorageSizeExceeded and initiates no data-object
transfer. -/
theorem syncFront_sizeExceeded (env : SyncEnv)
    (hdl : (downloadCloudLatest env.refsLatest env.indexStore env.refsList env.isS3OrSiYuan).err
        ≠ some DLErr.other)
    (hne : (downloadCloudLatest env.refsLatest env.indexStore env.refsList env.isS3OrSiYuan).index.ID
        ≠ env.localLatest.ID)
    (hsize : env.availableSize
          ≤ (downloadCloudLatest env.refsLatest env.indexStore env.refsList env.isS3OrSiYuan).index.Size
        ∨ env.availableSize ≤ env.localLatest.Size) :
    syncFront env = SyncFrontOutcome.sizeExceeded ∧ syncDataFetches env = [] := by
  have h1 : syncFront env = SyncFrontOutcome.sizeExceeded := by
    simp only [syncFront]
    rw [if_neg hdl, if_neg hne, if_pos hsize]
  exact ⟨h1, by simp [syncDataFetches, h1]⟩

/-- Witness for C8: empty remote, local latest of size 5, available 3. -/
theorem syncFront_sizeExceeded_witness :
    syncFront envC8 = SyncFrontOutcome.sizeExceeded ∧ syncDataFetches envC8 = [] :=
  syncFront_sizeExceeded envC8 (by decide) (by decide) (by decide)

/-- Counterexample to claim C10 as stated: a malformed refs/latest payload
yields a cloud latest with empty ID, yet SyncDownload propagates the
NotFound error instead of returning success. -/
theorem syncDownloadFront_malformed_counterexample :
    (downloadCloudLatest envC10.refsLatest envC10.indexStore envC10.refsList
        envC10.isS3OrSiYuan).index.ID = "" ∧
      (syncDownloadFront envC10).err ≠ none ∧
      (syncDownloadFront envC10).mergeResult = emptyMergeResult := by decide

/-- Claim C10 as amended: whenever the downloaded cloud latest has an
empty ID, SyncDownload returns at the early exit with an empty merge
result, no file or chunk transfer, and the error propagated from
downloadCloudLatest (nil when refs/latest was absent, NotFound when its
payload was malformed); the local latest and refs/latest-sync writes
happen only past this point. -/
theorem syncDownloadFront_emptyCloud (env : SyncEnv)
    (h : (downloadCloudLatest env.refsLatest env.indexStore env.refsList
        env.isS3OrSiYuan).index.ID = "") :
    syncDownloadFront env =
      ⟨emptyMergeResult,
        (downloadCloudLatest env.refsLatest env.indexStore env.refsList env.isS3OrSiYuan).err,
        false, []⟩ := by
  simp only [syncDownloadFront]
  by_cases hdl : (downloadCloudLatest env.refsLatest env.indexStore env.refsList
      env.isS3OrSiYuan).err = some DLErr.other
  · rw [if_pos hdl, hdl]
  · rw [if_neg hdl, if_pos (Or.inr h)]

/-- Witness for the amended C10: refs/latest absent gives a nil error and
the empty merge result. -/
theorem syncDownloadFront_emptyCloud_witness :
    syncDownloadFront envC10w = ⟨emptyMergeResult, none, false, []⟩ := by
  have h := syncDownloadFront_emptyCloud envC10w (by decide)
  rw [h]
  rfl

/-- Counterexample to claim C3 as stated: when the latest id is already
present in the downloaded indexes-v2.json, updateCloudIndexesV2 returns
without uploading, so the remote list keeps its old head, which differs
from the latest id. -/
theorem updateCloudIndexesV2_counterexample :
    remoteIndexesV2After idxC3 (some [⟨"A000", "", "", ""⟩, ⟨"L000", "", "", ""⟩])
        = [⟨"A000", "", "", ""⟩, ⟨"L000", "", "", ""⟩] ∧
      ((remoteIndexesV2After idxC3 (some [⟨"A000", "", "", ""⟩, ⟨"L000", "", "", ""⟩])).map
          (fun e => e.ID)).head? ≠ some idxC3.ID := by decide

/-- Claim C3 as amended: when the latest id is not already present in the
downloaded indexes-v2.json, the remote list after publication has no two
entries with the same id and its first entry id equals the latest id;
when the id is already present the remote list is left unchanged. -/
theorem updateCloudIndexesV2_fresh (latest : Index) (old : Option (List CloudIndexEntry))
    (h : ∀ e ∈ old.getD [], e.ID ≠ latest.ID) :
    ((remoteIndexesV2After latest old).map (fun e => e.ID)).Nodup ∧
      ((remoteIndexesV2After latest old).map (fun e => e.ID)).head? = some latest.ID := by
  cases old with
  | none => simp [remoteIndexesV2After, updateCloudIndexesV2, entryOf]
  | some entries =>
    have hany : entries.any (fun e => e.ID == latest.ID) = false := by
      simp only [List.any_eq_false]
      intro e he
      simpa using h e (by simpa using he)
    simp only [remoteIndexesV2After, updateCloudIndexesV2, hany, Bool.false_eq_true, if_false]
    obtain ⟨hnd, _⟩ := dedupIndexes_nodup entries []
    have hsub := dedupIndexes_subset entries []
    constructor
    · simp only [List.map_cons, List.nodup_cons]
      refine ⟨?_, hnd⟩
      intro hcontra
      rcases List.mem_map.1 hcontra with ⟨e, he, heq⟩
      exact h e (by simpa using hsub e he) (by simpa [entryOf] using heq)
    · simp [entryOf]

/-- Witness for the amended C3: publishing L000 over a list not containing
it yields a duplicate-free list headed by L000. -/
theorem updateCloudIndexesV2_fresh_witness :
    ((remoteIndexesV2After idxC3 (some [⟨"A000", "", "", ""⟩])).map (fun e => e.ID)).Nodup ∧
      ((remoteIndexesV2After idxC3 (some [⟨"A000", "", "", ""⟩])).map (fun e => e.ID)).head?
        = some idxC3.ID :=
  updateCloudIndexesV2_fresh idxC3 (some [⟨"A000", "", "", ""⟩]) (by decide)

/-- Claim C2: on an S3-family or SiYuan backend, when the max-seq pointer
names a hash different from the one stored in refs/latest, both indexes
are downloaded and the one with the larger created stamp is returned as
the cloud latest. -/
theorem downloadCloudLatest_seq_disagree
    (data : String) (indexStore : String → Option Index) (refsList : List String)
    (mainIdx seqIdx : Index)
    (hlen : (goTrimSpace data).length = 40)
    (hmain : indexStore (goTrimSpace data) = some mainIdx)
    (hmainID : mainIdx.ID ≠ "")
    (hseqid : (getSeqNumLatest refsList).id ≠ "")
    (hne : goTrimSpace data ≠ (getSeqNumLatest refsList).id)
    (hseq : indexStore ((getSeqNumLatest refsList).id) = some seqIdx)
    (hcreated : seqIdx.Created ≠ mainIdx.Created) :
    (downloadCloudLatest (some data) indexStore refsList true).downloads
        = [goTrimSpace data, (getSeqNumLatest refsList).id] ∧
      (((downloadCloudLatest (some data) indexStore refsList true).index = seqIdx ∧
          mainIdx.Created < seqIdx.Created) ∨
        ((downloadCloudLatest (some data) indexStore refsList true).index = mainIdx ∧
          seqIdx.Created < mainIdx.Created)) := by
  have h40 : ¬((goTrimSpace data).length ≠ 40) := by simp [hlen]
  have hres : downloadCloudLatest (some data) indexStore refsList true
      = ⟨if mainIdx.Created < seqIdx.Created then seqIdx else mainIdx, none,
          [goTrimSpace data, (getSeqNumLatest refsList).id]⟩ := by
    simp only [downloadCloudLatest, hmain, if_neg h40, if_true, ite_true, eq_self_iff_true,
      true_and]
    rw [if_pos ⟨hseqid, hmainID, hne⟩, hseq]
  rw [hres]
  refine ⟨rfl, ?_⟩
  rcases lt_or_gt_of_ne hcreated with hlt | hgt
  · right
    rw [if_neg (not_lt.2 (le_of_lt hlt))]
    exact ⟨rfl, hlt⟩
  · left
    rw [if_pos hgt]
    exact ⟨rfl, hgt⟩

/-- Witness for C2 at a concrete disagreeing pair of pointers. -/
theorem downloadCloudLatest_seq_disagree_witness :
    (downloadCloudLatest (some hash40) storeC2 ["latest-1-b"] true).downloads
        = [goTrimSpace hash40, (getSeqNumLatest ["latest-1-b"]).id] ∧
      (((downloadCloudLatest (some hash40) storeC2 ["latest-1-b"] true).index = seqIdxC2 ∧
          mainIdxC2.Created < seqIdxC2.Created) ∨
        ((downloadCloudLatest (some hash40) storeC2 ["latest-1-b"] true).index = mainIdxC2 ∧
          seqIdxC2.Created < mainIdxC2.Created)) :=
  downloadCloudLatest_seq_disagree hash40 storeC2 ["latest-1-b"] mainIdxC2 seqIdxC2
    (by decide) (by decide) (by decide) (by decide) (by decide) (by decide) (by decide)

/-- Auxiliary: in a list of files with pairwise distinct paths, find? by
the path of a member returns that member. -/
theorem find_unique_by_path : ∀ (L : List File) (c : File),
    ((L.map (fun f => f.Path)).Nodup) → c ∈ L →
      L.find? (fun f => f.Path == c.Path) = some c := by
  intro L
  induction L with
  | nil => intro c _ hc; simp at hc
  | cons x rest ih =>
    intro c hnd hc
    simp only [List.map_cons, List.nodup_cons] at hnd
    rcases List.mem_cons.1 hc with rfl | hc'
    · simp [List.find?_cons]
    · have hx : (x.Path == c.Path) = false := by
        refine beq_eq_false_iff_ne.2 ?_
        intro heq
        exact hnd.1 (heq ▸ List.mem_map_of_mem (fun f => f.Path) hc')
      rw [List.find?_cons, hx]
      exact ih c hnd.2 hc'

/-- Auxiliary: with pairwise distinct paths the last-wins path map lookup
at the path of a member returns that member. -/
theorem lastByPath_of_nodup (L : List File) (c : File)
    (hnd : (L.map (fun f => f.Path)).Nodup) (hc : c ∈ L) :
    lastByPath L c.Path = some c := by
  have hnd' : (L.reverse.map (fun f => f.Path)).Nodup := by
    rw [List.map_reverse]
    exact List.nodup_reverse.2 hnd
  exact find_unique_by_path L.reverse c hnd' (List.mem_reverse.2 hc)

/-- Claim C4: before the merge walk, a local upsert whose path has a
matching cloud upsert newer by more than seven minutes (420000 ms) is
dropped by filterLocalUpserts, so the cloud version wins for that path.
The cloud upserts are assumed to carry pairwise distinct paths, matching
the path-keyed map the source builds over them. -/
theorem filterLocalUpserts_drops_stale (localUpserts cloudUpserts : List File) (l c : File)
    (hnd : (cloudUpserts.map (fun f => f.Path)).Nodup)
    (hl : l ∈ localUpserts) (hc : c ∈ cloudUpserts)
    (hpath : c.Path = l.Path)
    (hskew : c.Updated - l.Updated > sevenMinutesMillis) :
    l ∉ filterLocalUpserts localUpserts cloudUpserts := by
  intro hmem
  have hlook : lastByPath cloudUpserts l.Path = some c := by
    rw [← hpath]
    exact lastByPath_of_nodup cloudUpserts c hnd hc
  have hstale : staleLocalUpsert cloudUpserts l = true := by
    simp only [staleLocalUpsert, hlook, decide_eq_true_eq]
    omega
  have hpaths : l.Path ∈ (localUpserts.filter (staleLocalUpsert cloudUpserts)).map
      (fun f => f.Path) :=
    List.mem_map_of_mem _ (List.mem_filter.2 ⟨hl, hstale⟩)
  simp only [filterLocalUpserts] at hmem
  have := (List.mem_filter.1 hmem).2
  simp only [decide_eq_true_eq] at this
  exact this hpaths

/-- Witness for C4: a cloud upsert 500000 ms newer than the local one at
the same path forces the local upsert out of the filtered list. -/
theorem filterLocalUpserts_drops_stale_witness :
    cloudFileC4.Updated - localFileC4.Updated > sevenMinutesMillis ∧
      localFileC4 ∉ filterLocalUpserts [localFileC4] [cloudFileC4] :=
  ⟨by decide,
    filterLocalUpserts_drops_stale [localFileC4] [cloudFileC4] localFileC4 cloudFileC4
      (by decide) (by decide) (by decide) (by decide) (by decide)⟩

/-! Lemmas about one step of the cloud-upsert walk. -/

theorem walkStep_matched_tmp (lus lrs : List File) (fetched : List String) (lf : List File)
    (ign : File → Bool) (acc : WalkAcc) (c lu : File) (hmatch : getFile lus c = some lu) :
    (walkStep lus lrs fetched lf ign acc c).tmpConflicts = acc.tmpConflicts ++ [c] := by
  simp only [walkStep, hmatch]
  by_cases hf : c.ID ∈ fetched
  · by_cases hi : ign lu = true <;> simp [hf, hi]
  · simp [hf]

theorem walkStep_matched_upserts (lus lrs : List File) (fetched : List String) (lf : List File)
    (ign : File → Bool) (acc : WalkAcc) (c lu : File) (hmatch : getFile lus c = some lu) :
    (walkStep lus lrs fetched lf ign acc c).Upserts
      = if c.ID ∈ fetched ∧ ign lu = true then acc.Upserts ++ [c] else acc.Upserts := by
  simp only [walkStep, hmatch]
  by_cases hf : c.ID ∈ fetched
  · by_cases hi : ign lu = true <;> simp [hf, hi]
  · simp [hf]

theorem walkStep_matched_conflicts (lus lrs : List File) (fetched : List String) (lf : List File)
    (ign : File → Bool) (acc : WalkAcc) (c lu : File) (hmatch : getFile lus c = some lu) :
    (walkStep lus lrs fetched lf ign acc c).Conflicts
      = if c.ID ∈ fetched ∧ ign lu = false then acc.Conflicts ++ [c] else acc.Conflicts := by
  simp only [walkStep, hmatch]
  by_cases hf : c.ID ∈ fetched
  · by_cases hi : ign lu = true <;> simp [hf, hi]
  · simp [hf]

theorem walkStep_unmatched_upserts (lus lrs : List File) (fetched : List String) (lf : List File)
    (ign : File → Bool) (acc : WalkAcc) (c : File)
    (h1 : getFile lus c = none) (h2 : getFile lrs c = none) :
    (walkStep lus lrs fetched lf ign acc c).Upserts
      = if goHasSuffix c.Path ".tmp" = false ∧ cloudUpsertTooOld lf c = false
        then acc.Upserts ++ [c] else acc.Upserts := by
  simp only [walkStep, h1, h2]
  by_cases ht : goHasSuffix c.Path ".tmp"
  · simp [ht]
  · by_cases ho : cloudUpsertTooOld lf c <;> simp [ht, ho]

theorem walkStep_tmp_sub (lus lrs : List File) (fetched : List String) (lf : List File)
    (ign : File → Bool) (acc : WalkAcc) (c : File) :
    (walkStep lus lrs fetched lf ign acc c).tmpConflicts = acc.tmpConflicts ∨
      (walkStep lus lrs fetched lf ign acc c).tmpConflicts = acc.tmpConflicts ++ [c] := by
  simp only [walkStep]
  cases hg : getFile lus c with
  | some lu =>
    by_cases hf : c.ID ∈ fetched
    · by_cases hi : ign lu = true <;> simp [hf, hi]
    · simp [hf]
  | none =>
    cases hg2 : getFile lrs c with
    | some x => simp
    | none =>
      by_cases ht : goHasSuffix c.Path ".tmp"
      · simp [ht]
      · by_cases ho : cloudUpsertTooOld lf c <;> simp [ht, ho]

theorem walkStep_upserts_sub (lus lrs : List File) (fetched : List String) (lf : List File)
    (ign : File → Bool) (acc : WalkAcc) (c : File) :
    (walkStep lus lrs fetched lf ign acc c).Upserts = acc.Upserts ∨
      (walkStep lus lrs fetched lf ign acc c).Upserts = acc.Upserts ++ [c] := by
  simp only [walkStep]
  cases hg : getFile lus c with
  | some lu =>
    by_cases hf : c.ID ∈ fetched
    · by_cases hi : ign lu = true <;> simp [hf, hi]
    · simp [hf]
  | none =>
    cases hg2 : getFile lrs c with
    | some x => simp
    | none =>
      by_cases ht : goHasSuffix c.Path ".tmp"
      · simp [ht]
      · by_cases ho : cloudUpsertTooOld lf c <;> simp [ht, ho]

theorem walkStep_conflicts_sub (lus lrs : List File) (fetched : List String) (lf : List File)
    (ign : File → Bool) (acc : WalkAcc) (c : File) :
    (walkStep lus lrs fetched lf ign acc c).Conflicts = acc.Conflicts ∨
      (walkStep lus lrs fetched lf ign acc c).Conflicts = acc.Conflicts ++ [c] := by
  simp only [walkStep]
  cases hg : getFile lus c with
  | some lu =>
    by_cases hf : c.ID ∈ fetched
    · by_cases hi : ign lu = true <;> simp [hf, hi]
    · simp [hf]
  | none =>
    cases hg2 : getFile lrs c with
    | some x => simp
    | none =>
      by_cases ht : goHasSuffix c.Path ".tmp"
      · simp [ht]
      · by_cases ho : cloudUpsertTooOld lf c <;> simp [ht, ho]

theorem mem_walkStep_tmp_ne (lus lrs : List File) (fetched : List String) (lf : List File)
    (ign : File → Bool) (acc : WalkAcc) (c cu : File) (hne : cu ≠ c) :
    (cu ∈ (walkStep lus lrs fetched lf ign acc c).tmpConflicts ↔ cu ∈ acc.tmpConflicts) := by
  rcases walkStep_tmp_sub lus lrs fetched lf ign acc c with h | h <;>
    (rw [h]; all_goals simp [List.mem_append, hne])

theorem mem_walkStep_upserts_ne (lus lrs : List File) (fetched : List String) (lf : List File)
    (ign : File → Bool) (acc : WalkAcc) (c cu : File) (hne : cu ≠ c) :
    (cu ∈ (walkStep lus lrs fetched lf ign acc c).Upserts ↔ cu ∈ acc.Upserts) := by
  rcases walkStep_upserts_sub lus lrs fetched lf ign acc c with h | h <;>
    (rw [h]; all_goals simp [List.mem_append, hne])

theorem mem_walkStep_conflicts_ne (lus lrs : List File) (fetched : List String) (lf : List File)
    (ign : File → Bool) (acc : WalkAcc) (c cu : File) (hne : cu ≠ c) :
    (cu ∈ (walkStep lus lrs fetched lf ign acc c).Conflicts ↔ cu ∈ acc.Conflicts) := by
  rcases walkStep_conflicts_sub lus lrs fetched lf ign acc c with h | h <;>
    (rw [h]; all_goals simp [List.mem_append, hne])

/-! Characterizations of the full walk for a fixed cloud upsert. -/

theorem foldWalk_tmp_matched (lus lrs : List File) (fetched : List String) (lf : List File)
    (ign : File → Bool) (cu lu : File) (hmatch : getFile lus cu = some lu) :
    ∀ (cus : List File) (acc : WalkAcc),
      (cu ∈ (cus.foldl (walkStep lus lrs fetched lf ign) acc).tmpConflicts ↔
        (cu ∈ acc.tmpConflicts ∨ cu ∈ cus)) := by
  intro cus
  induction cus with
  | nil => intro acc; simp
  | cons c rest ih =>
    intro acc
    simp only [List.foldl_cons]
    rw [ih (walkStep lus lrs fetched lf ign acc c)]
    by_cases hceq : cu = c
    · subst hceq
      rw [walkStep_matched_tmp lus lrs fetched lf ign acc _ lu hmatch]
      simp [List.mem_append]
    · rw [mem_walkStep_tmp_ne lus lrs fetched lf ign acc c cu hceq]
      simp only [List.mem_cons]
      tauto

theorem foldWalk_upserts_matched (lus lrs : List File) (fetched : List String) (lf : List File)
    (ign : File → Bool) (cu lu : File) (hmatch : getFile lus cu = some lu) :
    ∀ (cus : List File) (acc : WalkAcc),
      (cu ∈ (cus.foldl (walkStep lus lrs fetched lf ign) acc).Upserts ↔
        (cu ∈ acc.Upserts ∨ (cu ∈ cus ∧ cu.ID ∈ fetched ∧ ign lu = true))) := by
  intro cus
  induction cus with
  | nil => intro acc; simp
  | cons c rest ih =>
    intro acc
    simp only [List.foldl_cons]
    rw [ih (walkStep lus lrs fetched lf ign acc c)]
    by_cases hceq : cu = c
    · subst hceq
      rw [walkStep_matched_upserts lus lrs fetched lf ign acc _ lu hmatch]
      by_cases hcond : cu.ID ∈ fetched ∧ ign lu = true
      · rw [if_pos hcond]
        simp only [List.mem_append, List.mem_singleton, List.mem_cons]
        tauto
      · rw [if_neg hcond]
        simp only [List.mem_cons]
        tauto
    · rw [mem_walkStep_upserts_ne lus lrs fetched lf ign acc c cu hceq]
      simp only [List.mem_cons]
      tauto

theorem foldWalk_conflicts_matched (lus lrs : List File) (fetched : List String) (lf : List File)
    (ign : File → Bool) (cu lu : File) (hmatch : getFile lus cu = some lu) :
    ∀ (cus : List File) (acc : WalkAcc),
      (cu ∈ (cus.foldl (walkStep lus lrs fetched lf ign) acc).Conflicts ↔
        (cu ∈ acc.Conflicts ∨ (cu ∈ cus ∧ cu.ID ∈ fetched ∧ ign lu = false))) := by
  intro cus
  induction cus with
  | nil => intro acc; simp
  | cons c rest ih =>
    intro acc
    simp only [List.foldl_cons]
    rw [ih (walkStep lus lrs fetched lf ign acc c)]
    by_cases hceq : cu = c
    · subst hceq
      rw [walkStep_matched_conflicts lus lrs fetched lf ign acc _ lu hmatch]
      by_cases hcond : cu.ID ∈ fetched ∧ ign lu = false
      · rw [if_pos hcond]
        simp only [List.mem_append, List.mem_singleton, List.mem_cons]
        tauto
      · rw [if_neg hcond]
        simp only [List.mem_cons]
        tauto
    · rw [mem_walkStep_conflicts_ne lus lrs fetched lf ign acc c cu hceq]
      simp only [List.mem_cons]
      tauto

theorem foldWalk_upserts_unmatched (lus lrs : List File) (fetched : List String) (lf : List File)
    (ign : File → Bool) (cu : File)
    (h1 : getFile lus cu = none) (h2 : getFile lrs cu = none) :
    ∀ (cus : List File) (acc : WalkAcc),
      (cu ∈ (cus.foldl (walkStep lus lrs fetched lf ign) acc).Upserts ↔
        (cu ∈ acc.Upserts ∨ (cu ∈ cus ∧ goHasSuffix cu.Path ".tmp" = false ∧
          cloudUpsertTooOld lf cu = false))) := by
  intro cus
  induction cus with
  | nil => intro acc; simp
  | cons c rest ih =>
    intro acc
    simp only [List.foldl_cons]
    rw [ih (walkStep lus lrs fetched lf ign acc c)]
    by_cases hceq : cu = c
    · subst hceq
      rw [walkStep_unmatched_upserts lus lrs fetched lf ign acc _ h1 h2]
      by_cases hcond : goHasSuffix cu.Path ".tmp" = false ∧ cloudUpsertTooOld lf cu = false
      · rw [if_pos hcond]
        simp only [List.mem_append, List.mem_singleton, List.mem_cons]
        tauto
      · rw [if_neg hcond]
        simp only [List.mem_cons]
        tauto
    · rw [mem_walkStep_upserts_ne lus lrs fetched lf ign acc c cu hceq]
      simp only [List.mem_cons]
      tauto

/-- Counterexample to claim C1 as stated: a cloud upsert whose path also
appears among the local upserts but whose id is not among the downloaded
file ids becomes a tentative conflict only; contrary to the claim it is
recorded in neither mergeResult.Conflicts nor mergeResult.Upserts. -/
theorem cloudUpsertWalk_unfetched_counterexample :
    cloudFileA.Path ∈ [localFileA].map (fun f => f.Path) ∧
      cloudFileA.ID ∉ ([] : List String) ∧
      (cloudUpsertWalk [localFileA] [] [] [] (fun _ => false) [cloudFileA]).tmpConflicts
        = [cloudFileA] ∧
      (cloudUpsertWalk [localFileA] [] [] [] (fun _ => false) [cloudFileA]).Conflicts = [] ∧
      (cloudUpsertWalk [localFileA] [] [] [] (fun _ => false) [cloudFileA]).Upserts = [] := by
  decide

/-- Claim C1 as amended: a cloud upsert matched by a local upsert is
always recorded as a tentative conflict; when its id was actually
downloaded it is demoted to a merge upsert if the fold-only comparison
accepts the local upsert and recorded as a real conflict otherwise; when
its id was not downloaded it is added to neither the merge upserts nor
the conflicts. -/
theorem cloudUpsertWalk_matched (lus lrs : List File) (fetched : List String)
    (lf : List File) (ign : File → Bool) (cus : List File) (cu lu : File)
    (hmem : cu ∈ cus) (hmatch : getFile lus cu = some lu) :
    cu ∈ (cloudUpsertWalk lus lrs fetched lf ign cus).tmpConflicts ∧
      (cu.ID ∈ fetched → ign lu = true →
        cu ∈ (cloudUpsertWalk lus lrs fetched lf ign cus).Upserts) ∧
      (cu.ID ∈ fetched → ign lu = false →
        cu ∈ (cloudUpsertWalk lus lrs fetched lf ign cus).Conflicts) ∧
      (cu.ID ∉ fetched →
        cu ∉ (cloudUpsertWalk lus lrs fetched lf ign cus).Upserts ∧
          cu ∉ (cloudUpsertWalk lus lrs fetched lf ign cus).Conflicts) := by
  have ht := foldWalk_tmp_matched lus lrs fetched lf ign cu lu hmatch cus ⟨[], [], []⟩
  have hu := foldWalk_upserts_matched lus lrs fetched lf ign cu lu hmatch cus ⟨[], [], []⟩
  have hc := foldWalk_conflicts_matched lus lrs fetched lf ign cu lu hmatch cus ⟨[], [], []⟩
  refine ⟨ht.2 (Or.inr hmem), ?_, ?_, ?_⟩
  · intro hf hi
    exact hu.2 (Or.inr ⟨hmem, hf, hi⟩)
  · intro hf hi
    exact hc.2 (Or.inr ⟨hmem, hf, hi⟩)
  · intro hf
    constructor
    · intro hmemU
      rcases hu.1 hmemU with habs | ⟨_, hf', _⟩
      · exact absurd habs (List.not_mem_nil cu)
      · exact hf hf'
    · intro hmemC
      rcases hc.1 hmemC with habs | ⟨_, hf', _⟩
      · exact absurd habs (List.not_mem_nil cu)
      · exact hf hf'

/-- Witness for the amended C1 at a downloaded, fold-only cloud upsert. -/
theorem cloudUpsertWalk_matched_witness :
    cloudFileB ∈ (cloudUpsertWalk [localFileB] [] ["id-cloud-b"] [] (fun _ => true)
        [cloudFileB]).tmpConflicts ∧
      (cloudFileB.ID ∈ ["id-cloud-b"] → (fun (_ : File) => true) localFileB = true →
        cloudFileB ∈ (cloudUpsertWalk [localFileB] [] ["id-cloud-b"] [] (fun _ => true)
          [cloudFileB]).Upserts) ∧
      (cloudFileB.ID ∈ ["id-cloud-b"] → (fun (_ : File) => true) localFileB = false →
        cloudFileB ∈ (cloudUpsertWalk [localFileB] [] ["id-cloud-b"] [] (fun _ => true)
          [cloudFileB]).Conflicts) ∧
      (cloudFileB.ID ∉ ["id-cloud-b"] →
        cloudFileB ∉ (cloudUpsertWalk [localFileB] [] ["id-cloud-b"] [] (fun _ => true)
            [cloudFileB]).Upserts ∧
          cloudFileB ∉ (cloudUpsertWalk [localFileB] [] ["id-cloud-b"] [] (fun _ => true)
            [cloudFileB]).Conflicts) :=
  cloudUpsertWalk_matched [localFileB] [] ["id-cloud-b"] [] (fun _ => true) [cloudFileB]
    cloudFileB localFileB (by decide) (by decide)

/-- Claim C5: during the cloud-upsert walk, a cloud upsert matching
neither a local upsert nor a local remove lands in mergeResult.Upserts
exactly when its path does not end in .tmp and the locally known file at
the same path, if any, is not more than seven minutes newer. -/
theorem cloudUpsertWalk_plain_upsert (lus lrs : List File) (fetched : List String)
    (lf : List File) (ign : File → Bool) (cus : List File) (cu : File)
    (hmem : cu ∈ cus) (h1 : getFile lus cu = none) (h2 : getFile lrs cu = none) :
    (cu ∈ (cloudUpsertWalk lus lrs fetched lf ign cus).Upserts ↔
      (goHasSuffix cu.Path ".tmp" = false ∧
        ∀ lfile, lastByPath lf cu.Path = some lfile →
          ¬(lfile.Updated > cu.Updated + sevenMinutesMillis))) := by
  have h := foldWalk_upserts_unmatched lus lrs fetched lf ign cu h1 h2 cus ⟨[], [], []⟩
  have htoo : (cloudUpsertTooOld lf cu = false) ↔
      (∀ lfile, lastByPath lf cu.Path = some lfile →
        ¬(lfile.Updated > cu.Updated + sevenMinutesMillis)) := by
    simp only [cloudUpsertTooOld]
    cases hl : lastByPath lf cu.Path with
    | none => simp
    | some lfile => simp
  simp only [cloudUpsertWalk]
  rw [h, htoo]
  simp [hmem]

/-- Witness for C5 at a plain markdown cloud upsert into an empty local
state. -/
theorem cloudUpsertWalk_plain_upsert_witness :
    (cloudFileC5 ∈ (cloudUpsertWalk [] [] [] [] (fun _ => false) [cloudFileC5]).Upserts ↔
      (goHasSuffix cloudFileC5.Path ".tmp" = false ∧
        ∀ lfile, lastByPath [] cloudFileC5.Path = some lfile →
          ¬(lfile.Updated > cloudFileC5.Updated + sevenMinutesMillis))) :=
  cloudUpsertWalk_plain_upsert [] [] [] [] (fun _ => false) [cloudFileC5] cloudFileC5
    (by decide) (by decide) (by decide)

end Dejavu
